import Mathlib

/-!
Verification of the repository-analytics miner against its design document.

The development shallowly embeds the Python sources:
  * `analytics/services/github_ci.py` — rate-limited fetcher (`_get`,
    `_sleep_until_reset`), the coverage-driven pagination loop
    (`fetch_workflow_runs_covering`) and the per-SHA run summarizer
    (`summarize_runs_by_sha`);
  * `analytics/services/miner.py` — `compute_average_streak` and the
    report-building `main` (two-pass aggregation);
  * `analytics/views.py` — the progress-streaming generator of
    `stream_progress`.

External collaborators (the HTTP client, `urlparse`, `datetime` parsing, git
traversal, the job queue's producer) are modelled as explicit inputs.  Python
strings are Lean `String`s; Python `None` is `Option.none`; Python string
truthiness (empty string is falsy) is modelled explicitly where the source
relies on it.  ISO-8601 timestamps are compared as strings exactly where the
source compares them as strings, and parsed to an abstract integer time-line
(a `String → Int` collaborator standing for `datetime.fromisoformat`) exactly
where the source parses them.
-/

namespace RepoPerf

/-- Lexicographic code-point comparison of character lists, the semantics of
Python's `<` on strings. -/
def charListLt : List Char → List Char → Bool
  | [], [] => false
  | [], _ :: _ => true
  | _ :: _, [] => false
  | a :: as, b :: bs => if a < b then true else if b < a then false else charListLt as bs

/-- Python `a < b` on strings (code-point lexicographic). -/
def pyStrLt (a b : String) : Bool := charListLt a.toList b.toList

/-- Python `str.lower()`. -/
def pyLower (s : String) : String := String.mk (s.toList.map Char.toLower)

/-- Python truthiness of an optional string: `None` and `""` are falsy. -/
def optTruthy : Option String → Bool
  | none => false
  | some s => s ≠ ""

/-- Python `a or b` on optional strings (falsy `a` — `None` or `""` — yields `b`). -/
def pyOrStr (a b : Option String) : Option String :=
  match a with
  | some s => if s = "" then b else some s
  | none => b

/-- A GitHub Actions workflow-run record, restricted to the fields the
sources read (`github_ci.py`, `miner.py`).  `head_repository` is the
`full_name` of the `head_repository` object; `none` covers both a missing
object and a missing `full_name`. -/
structure WorkflowRun where
  id : Option Nat
  runName : Option String
  head_sha : Option String
  head_repository : Option String
  event : Option String
  status : Option String
  conclusion : Option String
  created_at : Option String
  updated_at : Option String
  html_url : Option String
  head_branch : Option String
  workflow_id : Option Nat
deriving DecidableEq, Repr

/-- The projection of a run stored as `latest_run` by
`summarize_runs_by_sha` (github_ci.py lines 189-200). -/
structure LatestRun where
  id : Option Nat
  runName : Option String
  event : Option String
  status : Option String
  conclusion : Option String
  created_at : Option String
  updated_at : Option String
  html_url : Option String
  head_branch : Option String
  workflow_id : Option Nat
deriving DecidableEq, Repr

/-- Build the `latest_run` dict from a run (github_ci.py lines 189-200). -/
def projectLatest (r : WorkflowRun) : LatestRun :=
  ⟨r.id, r.runName, r.event, r.status, r.conclusion, r.created_at, r.updated_at,
    r.html_url, r.head_branch, r.workflow_id⟩

/-- The `conclusions_tally` dict: its keys are fixed at creation
(github_ci.py lines 165-173) and never extended. -/
structure ConclTally where
  success : Nat
  failure : Nat
  cancelled : Nat
  timed_out : Nat
  skipped : Nat
  neutral : Nat
  action_required : Nat
deriving DecidableEq, Repr

/-- The fresh all-zero tally (github_ci.py lines 165-173). -/
def zeroTally : ConclTally := ⟨0, 0, 0, 0, 0, 0, 0⟩

/-- The fixed outcome-category key set of `conclusions_tally`. -/
def fixedConclusions : List String :=
  ["success", "failure", "cancelled", "timed_out", "skipped", "neutral", "action_required"]

/-- `if concl in d["conclusions_tally"]: d["conclusions_tally"][concl] += 1`
(github_ci.py lines 178-180): a key outside the fixed set leaves the tally
unchanged. -/
def ConclTally.bump (t : ConclTally) (c : String) : ConclTally :=
  if c = "success" then { t with success := t.success + 1 }
  else if c = "failure" then { t with failure := t.failure + 1 }
  else if c = "cancelled" then { t with cancelled := t.cancelled + 1 }
  else if c = "timed_out" then { t with timed_out := t.timed_out + 1 }
  else if c = "skipped" then { t with skipped := t.skipped + 1 }
  else if c = "neutral" then { t with neutral := t.neutral + 1 }
  else if c = "action_required" then { t with action_required := t.action_required + 1 }
  else t

/-- Dict lookup in the tally: keys outside the fixed set are absent (read 0). -/
def ConclTally.get (t : ConclTally) (c : String) : Nat :=
  if c = "success" then t.success
  else if c = "failure" then t.failure
  else if c = "cancelled" then t.cancelled
  else if c = "timed_out" then t.timed_out
  else if c = "skipped" then t.skipped
  else if c = "neutral" then t.neutral
  else if c = "action_required" then t.action_required
  else 0

/-- Sum of all values stored in the tally. -/
def ConclTally.total (t : ConclTally) : Nat :=
  t.success + t.failure + t.cancelled + t.timed_out + t.skipped + t.neutral + t.action_required

/-- One per-SHA summary record of `summarize_runs_by_sha`. -/
structure ShaSummary where
  has_actions_runs : Bool
  runs_count : Nat
  latest_run : Option LatestRun
  conclusions_tally : ConclTally
deriving DecidableEq, Repr

/-- The dict installed by `setdefault` on first sight of a SHA
(github_ci.py lines 159-175). -/
def initialShaSummary : ShaSummary :=
  { has_actions_runs := true, runs_count := 0, latest_run := none,
    conclusions_tally := zeroTally }

/-- The body of the `summarize_runs_by_sha` loop for one run, acting on the
SHA's current summary `d` (github_ci.py lines 176-200).  The latest-run
comparison reproduces the source exactly: `old_ts` is the stored latest's
`updated_at` only, `new_ts` is `updated_at or created_at`, and
`is_newer = (old_ts is None) or (new_ts and old_ts and new_ts > old_ts)`
with Python truthiness and string comparison. -/
def summarizeStep (d : ShaSummary) (run : WorkflowRun) : ShaSummary :=
  let concl := pyLower (run.conclusion.getD "")
  let old_ts : Option String :=
    match d.latest_run with
    | some lr => lr.updated_at
    | none => none
  let new_ts := pyOrStr run.updated_at run.created_at
  let is_newer : Bool :=
    old_ts.isNone || (optTruthy new_ts && optTruthy old_ts
      && pyStrLt (old_ts.getD "") (new_ts.getD ""))
  { d with
    runs_count := d.runs_count + 1,
    conclusions_tally := d.conclusions_tally.bump concl,
    latest_run := if is_newer then some (projectLatest run) else d.latest_run }

/-- `by_sha.setdefault(sha, …)` followed by the in-place mutation: locate the
SHA's entry (insertion-ordered association list standing for the Python
dict), create it fresh if absent, and apply the loop body to it. -/
def upsertSha : List (String × ShaSummary) → String → WorkflowRun → List (String × ShaSummary)
  | [], sha, run => [(sha, summarizeStep initialShaSummary run)]
  | (k, v) :: rest, sha, run =>
    if k = sha then (k, summarizeStep v run) :: rest
    else (k, v) :: upsertSha rest sha run

/-- `summarize_runs_by_sha` (github_ci.py lines 148-202): fold the run list,
skipping runs whose `head_sha` is falsy (`None` or `""`). -/
def summarize_runs_by_sha (runs : List WorkflowRun) : List (String × ShaSummary) :=
  runs.foldl
    (fun m run =>
      match run.head_sha with
      | none => m
      | some sha => if sha = "" then m else upsertSha m sha run)
    []

/-- Dict lookup `by_sha[sha]` / `sha in by_sha`. -/
def lookupSha (m : List (String × ShaSummary)) (sha : String) : Option ShaSummary :=
  (m.find? (fun p => p.1 == sha)).map (·.2)

/-- An HTTP response as `_get` reads it: the status code and the two
rate-limit headers already passed through `int(...)` with their defaults
(`"1"` and `"0"` when absent); `malformedHeaders` records that `int(...)`
raised `ValueError` on a present header. -/
structure HttpResp where
  status : Nat
  remaining : Int
  reset : Int
  malformedHeaders : Bool
deriving DecidableEq, Repr

/-- `_sleep_until_reset` (github_ci.py lines 36-53) as a function of the
current clock `now`: returns whether it slept, and the clock afterwards
(`max(0, reset - now) + 1` seconds later when it slept). -/
def sleep_until_reset (now : Int) (r : HttpResp) : Bool × Int :=
  if r.malformedHeaders then (false, now)
  else if r.remaining ≤ 0 ∧ now < r.reset then (true, now + max 0 (r.reset - now) + 1)
  else (false, now)

/-- Outcome of `_get`: a successful response (with the clock after the
proactive quota sleep and the number of requests issued), an HTTPError from
`raise_for_status` (with the number of requests issued), or — only when
`max_retries = 0` — the `NameError` of reading the loop variable after a
loop that never ran. -/
inductive GetOutcome where
  | success (resp : HttpResp) (finishedAt : Int) (requestsMade : Nat)
  | httpError (statusCode : Nat) (requestsMade : Nat)
  | noRequest
deriving DecidableEq, Repr

/-- The `for i in range(max_retries)` loop of `_get` (github_ci.py lines
56-77).  `fuel` is the number of loop iterations left, `i` the Python loop
index, `t` the clock; `fetch i t` is the response the network collaborator
returns to the request issued at index `i` and time `t`.  Every `continue`
— the rate-limited 403, the non-rate-limited 403 and the 5xx branch alike —
advances `i` and spends one iteration; leaving the loop with retries
exhausted re-raises on the last response. -/
def getAux (fetch : Nat → Int → HttpResp) (baseSleep : Int) :
    Nat → Nat → Int → GetOutcome
  | 0, _, _ => .noRequest
  | fuel + 1, i, t =>
    let r := fetch i t
    if r.status = 403 then
      let slept := sleep_until_reset t r
      let tNext := if slept.1 then slept.2 else t + baseSleep * (i + 1)
      match fuel with
      | 0 => .httpError 403 (i + 1)
      | fuel' + 1 => getAux fetch baseSleep (fuel' + 1) (i + 1) tNext
    else if 500 ≤ r.status ∧ r.status < 600 then
      match fuel with
      | 0 => .httpError r.status (i + 1)
      | fuel' + 1 => getAux fetch baseSleep (fuel' + 1) (i + 1) (t + baseSleep * (i + 1))
    else if 400 ≤ r.status then
      .httpError r.status (i + 1)
    else
      .success r (sleep_until_reset t r).2 (i + 1)

/-- `_get(url, params, max_retries, base_sleep)` starting the loop at index
0 and clock `t0`. -/
def pyGet (fetch : Nat → Int → HttpResp) (baseSleep : Int) (max_retries : Nat)
    (t0 : Int) : GetOutcome :=
  getAux fetch baseSleep max_retries 0 t0

/-- Result of `fetch_workflow_runs_covering`: the accumulated run list, the
covered target SHAs (a set, kept as a duplicate-free insertion-ordered
list), and how many pages were requested from the provider. -/
structure FetchResult where
  allRuns : List WorkflowRun
  covered : List String
  pagesRequested : Nat
deriving DecidableEq, Repr

/-- The per-page `for run in runs` loop of `fetch_workflow_runs_covering`
(github_ci.py lines 116-131): runs whose `head_repository` full name is
truthy and differs from `owner/repo` are skipped; for the rest, a head SHA
in the target set is marked covered and the oldest parsed timestamp
(`updated_at or created_at`) on the page is tracked.  `parseTs` stands for
`datetime.fromisoformat` mapped onto an abstract integer time-line. -/
def pageScan (repoFull : String) (targets : List String) (parseTs : String → Int)
    (runs : List WorkflowRun) (cov0 : List String) : List String × Option Int :=
  runs.foldl
    (fun acc run =>
      let hr := run.head_repository.getD ""
      if hr ≠ "" ∧ hr ≠ repoFull then acc
      else
        let cov :=
          match run.head_sha with
          | some s => if s ∈ targets ∧ s ∉ acc.1 then acc.1 ++ [s] else acc.1
          | none => acc.1
        let oldest :=
          match pyOrStr run.updated_at run.created_at with
          | some ts =>
            if ts = "" then acc.2
            else
              let d := parseTs ts
              match acc.2 with
              | none => some d
              | some o => if d < o then some d else some o
          | none => acc.2
        (cov, oldest))
    (cov0, none)

/-- The `while page <= hard_page_cap` loop of `fetch_workflow_runs_covering`
(github_ci.py lines 100-145).  `pages page` is the `workflow_runs` list the
provider returns for that page; `fuel` counts the loop iterations still
allowed by the cap.  An empty page, full coverage or an oldest-before-cutoff
page stops; note that `all_runs.extend(runs)` runs before the head-repository
filter, which gates only coverage and the oldest timestamp. -/
def fetchAux (pages : Nat → List WorkflowRun) (repoFull : String)
    (targets : List String) (cutoff : Int) (parseTs : String → Int) :
    Nat → Nat → List WorkflowRun → List String → Nat → FetchResult
  | 0, _, acc, cov, reqs => ⟨acc, cov, reqs⟩
  | fuel + 1, page, acc, cov, reqs =>
    let runs := pages page
    if runs = [] then ⟨acc, cov, reqs + 1⟩
    else
      let acc2 := acc ++ runs
      let scanned := pageScan repoFull targets parseTs runs cov
      if targets.all (fun s => decide (s ∈ scanned.1)) then ⟨acc2, scanned.1, reqs + 1⟩
      else if (match scanned.2 with | some o => decide (o < cutoff) | none => false) then
        ⟨acc2, scanned.1, reqs + 1⟩
      else fetchAux pages repoFull targets cutoff parseTs fuel (page + 1) acc2 scanned.1 (reqs + 1)

/-- `fetch_workflow_runs_covering(owner, repo, cutoff_dt, target_shas,
hard_page_cap, …)`: pages start at 1 with an empty accumulator and an empty
covered set. -/
def fetch_workflow_runs_covering (pages : Nat → List WorkflowRun) (owner repo : String)
    (cutoff : Int) (targets : List String) (hard_page_cap : Nat)
    (parseTs : String → Int) : FetchResult :=
  fetchAux pages (owner ++ "/" ++ repo) targets cutoff parseTs hard_page_cap 1 [] [] 0

/-- Inner loop of `compute_average_streak` (miner.py lines 74-82): `prev` is
the previous date, `cur` the running streak length; a non-consecutive date
closes the current streak.  Calendar dates are day ordinals (`Int`), so
"next calendar day" is `prev + 1` — the embedding of
`unique_dates_sorted[i] == unique_dates_sorted[i-1] + timedelta(days=1)`. -/
def streakGo (prev : Int) (cur : Nat) : List Int → List Nat
  | [] => [cur]
  | d :: rest => if d = prev + 1 then streakGo d (cur + 1) rest else cur :: streakGo d 1 rest

/-- The streak-length list `streaks` built by `compute_average_streak`. -/
def streakLengths : List Int → List Nat
  | [] => []
  | d :: rest => streakGo d 1 rest

/-- `compute_average_streak` (miner.py lines 67-83): 0.0 on the empty list,
otherwise `sum(streaks) / len(streaks)` (exact rational mean standing for
the Python float division). -/
def compute_average_streak (l : List Int) : Rat :=
  if l = [] then 0 else ((streakLengths l).sum : Rat) / ((streakLengths l).length : Rat)

/-- Longest consecutive-day prefix run: `takeRun prev l` splits `l` into the
maximal prefix continuing the run ending at `prev` and the remainder.
Spec-side notion used to state that the code partitions into maximal runs. -/
def takeRun (prev : Int) : List Int → List Int × List Int
  | [] => ([], [])
  | d :: rest =>
    if d = prev + 1 then
      let p := takeRun d rest
      (d :: p.1, p.2)
    else ([], d :: rest)

theorem takeRun_snd_length (l : List Int) : ∀ prev, (takeRun prev l).2.length ≤ l.length := by
  induction l with
  | nil => intro prev; simp [takeRun]
  | cons d rest ih =>
    intro prev
    by_cases h : d = prev + 1
    · simpa [takeRun, h] using Nat.le_succ_of_le (ih d)
    · simp [takeRun, h]

/-- The spec's partition of a date list into maximal runs of consecutive
calendar days. -/
def maximalRuns : List Int → List (List Int)
  | [] => []
  | d :: rest =>
    let p := takeRun d rest
    (d :: p.1) :: maximalRuns p.2
termination_by l => l.length
decreasing_by
  simp only [List.length_cons]
  exact Nat.lt_succ_of_le (takeRun_snd_length rest d)

/-- Python `str.strip("/")`. -/
def pyStripSlash (s : String) : String :=
  String.mk (((s.toList.dropWhile (· = '/')).reverse.dropWhile (· = '/')).reverse)

/-- Python `str.split("/")` (non-empty separator semantics: `"".split("/")`
is `[""]`). -/
def splitCharAux (sep : Char) (cur : List Char) : List Char → List (List Char)
  | [] => [cur.reverse]
  | c :: rest =>
    if c = sep then cur.reverse :: splitCharAux sep [] rest
    else splitCharAux sep (c :: cur) rest

/-- `path.split("/")` on a whole string. -/
def pySplitSlash (s : String) : List String := (splitCharAux '/' [] s.toList).map String.mk

/-- `owner_from_url` (github_ci.py lines 16-25), embedded from the URL's
path component on (`urlparse` is the standard-library collaborator that
extracts the path): strip surrounding slashes, split on `/`, raise
`ValueError` for fewer than two segments, else return the first segment. -/
def owner_from_url (path : String) : Except String String :=
  let parts := pySplitSlash (pyStripSlash path)
  if parts.length < 2 then .error "Cannot parse owner or repo from URL"
  else .ok (parts.headD "")

/-- One server-sent event yielded by the `gen()` generator of
`stream_progress` (views.py lines 281-295): the initial `retry: 1000`
directive, a `data:` line, or the single `event: finished` terminal event
with its `ok`/`public_url` payload. -/
inductive SSEEvent where
  | retryDirective
  | dataLine (line : String)
  | finished (ok : Option Bool) (public_url : Option String)
deriving DecidableEq, Repr

/-- The `while True` drain loop of `gen()` (views.py lines 283-295) read
against a settled job state: `q` is the FIFO queue contents, `done`/`ok`/
`url` the job flags.  `q.get(timeout=1)` succeeds exactly while the queue is
non-empty; on `queue.Empty` with the done flag set the terminal event is
yielded and the generator ends; with the flag clear the loop waits forever
(no producer remains), modelled as `none`. -/
def genLoop (done : Bool) (ok : Option Bool) (url : Option String) :
    List String → Option (List SSEEvent)
  | [] => if done then some [.finished ok url] else none
  | l :: rest => (genLoop done ok url rest).map (.dataLine l :: ·)

/-- `stream_progress` for one job: the `retry: 1000` prelude followed by the
drain loop.  The generator is consumed once; its output is the finite event
sequence. -/
def stream_progress (q : List String) (done : Bool) (ok : Option Bool)
    (url : Option String) : Option (List SSEEvent) :=
  (genLoop done ok url q).map (.retryDirective :: ·)

/-- A commit as the miner reads it from the traversal collaborator
(PyDriller): the fields `main()` uses that the claims touch.  `authorTs` is
the author date on the abstract integer time-line; `insertions`/`deletions`
are optional, read through `or 0`. -/
structure Commit where
  hash : String
  authorName : Option String
  authorEmail : Option String
  insertions : Option Nat
  deletions : Option Nat
  filesChanged : Nat
  authorTs : Int
deriving DecidableEq, Repr

/-- `commit.author.name if commit.author and commit.author.name else
"Unknown"` (miner.py line 275): `none` covers a missing author object or
name, and the empty string is falsy. -/
def pyAuthorName (c : Commit) : String :=
  match c.authorName with
  | some s => if s = "" then "Unknown" else s
  | none => "Unknown"

/-- The matching email fallback (miner.py line 276). -/
def pyAuthorEmail (c : Commit) : String :=
  match c.authorEmail with
  | some s => if s = "" then "unknown@example.com" else s
  | none => "unknown@example.com"

/-- The `(name, email)` dict key of the author aggregator. -/
def authorKey (c : Commit) : String × String := (pyAuthorName c, pyAuthorEmail c)

/-- Python set add on the insertion-ordered list model. -/
def insertIfAbsent (l : List String) (s : String) : List String :=
  if s ∈ l then l else l ++ [s]

/-- One author bucket (miner.py lines 280-301), restricted to the fields the
claims and the finalized report entries below read.  `ci_conclusions_totals`
is the `Counter` — it admits arbitrary string keys. -/
structure AuthorBucket where
  name : String
  email : String
  commits : List String
  total_insertions : Nat
  total_deletions : Nat
  total_files_changed : Nat
  ci_conclusions_totals : String → Nat
  pr_head_shas : List String

/-- The fresh bucket installed on first sight of an author key. -/
def initBucket (c : Commit) : AuthorBucket :=
  { name := pyAuthorName c, email := pyAuthorEmail c, commits := [],
    total_insertions := 0, total_deletions := 0, total_files_changed := 0,
    ci_conclusions_totals := fun _ => 0, pr_head_shas := [] }

/-- One `if cnt: counter[status] += cnt` step over a tally item
(miner.py lines 372-374). -/
def tallyItemStep (acc : String → Nat) (kv : String × Nat) : String → Nat :=
  if kv.2 ≠ 0 then (fun x => if x = kv.1 then acc x + kv.2 else acc x) else acc

/-- `for status, cnt in ci.get("conclusions_tally", {}).items(): if cnt:
counter[status] += cnt` (miner.py lines 372-374): the items of the fixed
seven-key tally dict, folded into the author's `Counter`. -/
def addTally (counter : String → Nat) (t : ConclTally) : String → Nat :=
  [("success", t.success), ("failure", t.failure), ("cancelled", t.cancelled),
   ("timed_out", t.timed_out), ("skipped", t.skipped), ("neutral", t.neutral),
   ("action_required", t.action_required)].foldl tallyItemStep counter

/-- The pass-2 loop body for one commit acting on its author's bucket
(miner.py lines 303-378): append the commit, add the line/file totals, fold
the commit's CI tally into the author's CI totals when it has runs, and
record the hash as a PR head when the latest run's event is
`pull_request`. -/
def stepBucket (ciIndex : List (String × ShaSummary)) (c : Commit)
    (b : AuthorBucket) : AuthorBucket :=
  let ci := lookupSha ciIndex c.hash
  let latest_event : Option String :=
    match ci with
    | some s =>
      match s.latest_run with
      | some lr => lr.event
      | none => none
    | none => none
  { b with
    commits := b.commits ++ [c.hash],
    total_insertions := b.total_insertions + c.insertions.getD 0,
    total_deletions := b.total_deletions + c.deletions.getD 0,
    total_files_changed := b.total_files_changed + c.filesChanged,
    ci_conclusions_totals :=
      match ci with
      | some s =>
        if s.has_actions_runs then addTally b.ci_conclusions_totals s.conclusions_tally
        else b.ci_conclusions_totals
      | none => b.ci_conclusions_totals,
    pr_head_shas :=
      if latest_event = some "pull_request" then insertIfAbsent b.pr_head_shas c.hash
      else b.pr_head_shas }

/-- `authors[key]` upsert on the insertion-ordered dict model. -/
def upsertAuthor : List ((String × String) × AuthorBucket) → String × String →
    (AuthorBucket → AuthorBucket) → AuthorBucket → List ((String × String) × AuthorBucket)
  | [], k, f, b0 => [(k, f b0)]
  | (k0, b) :: rest, k, f, b0 =>
    if k0 = k then (k0, f b) :: rest
    else (k0, b) :: upsertAuthor rest k f b0

/-- Pass 2 of `main()` restricted to the author aggregator: fold the window's
commits into the per-author buckets. -/
def pass2_authors (commits : List Commit) (ciIndex : List (String × ShaSummary)) :
    List ((String × String) × AuthorBucket) :=
  commits.foldl (fun m c => upsertAuthor m (authorKey c) (stepBucket ciIndex c) (initBucket c)) []

/-- One iteration of the `for run in ci_runs` totals loop
(miner.py lines 399-402). -/
def ciStatusStep (acc : String → Nat) (run : WorkflowRun) : String → Nat :=
  let concl := pyLower (run.conclusion.getD "")
  if concl ≠ "" then (fun x => if x = concl then acc x + 1 else acc x) else acc

/-- The repo-level `ci_status_totals` Counter (miner.py lines 399-402):
every run whose `(conclusion or "").lower()` is non-empty is counted under
that lowercased key, whatever the key is. -/
def ci_status_totals (runs : List WorkflowRun) : String → Nat :=
  runs.foldl ciStatusStep (fun _ => 0)

/-- A finalized per-author entry (miner.py lines 427-450), restricted to the
aggregate fields the claims touch. -/
structure FinalAuthor where
  name : String
  email : String
  commit_count : Nat
  total_insertions : Nat
  total_deletions : Nat
  total_files_changed : Nat
  ci_conclusions_totals : String → Nat
  pr_count : Nat

/-- Finalize one bucket (miner.py lines 427-450). -/
def finalizeAuthor (b : AuthorBucket) : FinalAuthor :=
  { name := b.name, email := b.email, commit_count := b.commits.length,
    total_insertions := b.total_insertions, total_deletions := b.total_deletions,
    total_files_changed := b.total_files_changed,
    ci_conclusions_totals := b.ci_conclusions_totals,
    pr_count := b.pr_head_shas.length }

/-- The `repo_summary` object (miner.py lines 469-500), restricted to the
fields the claims touch. -/
structure RepoSummary where
  total_commits : Nat
  total_ci_runs : Nat
  ci_status_totals : String → Nat
  total_developers : Nat

/-- The top-level `results` document `main()` writes.  `repo_summary` is
`none` exactly when the key was never added to the dict. -/
structure MinerReport where
  repo_name : String
  days_window : Nat
  authors : List FinalAuthor
  repo_summary : Option RepoSummary

/-- `main()` of miner.py from the end of pass 1 on, as a function of the
window's commit list and the CI collaborators.  With zero commits in the
window it short-circuits (miner.py lines 172-178) and writes the initial
`results` dict — empty `authors`, no `repo_summary` key.  Otherwise it
derives the cutoff from the earliest author date (UTC normalization is the
identity on the abstract time-line), fetches push and pull-request runs,
unions them, summarizes per SHA, runs pass 2 and finalizes. -/
def miner_main (repoName owner : String) (days : Nat) (commits : List Commit)
    (pushPages prPages : Nat → List WorkflowRun) (hard_page_cap : Nat)
    (parseTs : String → Int) : MinerReport :=
  let total_commits := commits.length
  if total_commits = 0 then
    { repo_name := repoName, days_window := days, authors := [], repo_summary := none }
  else
    let earliest : Int :=
      match commits with
      | [] => 0
      | c :: rest => rest.foldl (fun a c2 => if c2.authorTs < a then c2.authorTs else a) c.authorTs
    let targets := commits.map (·.hash)
    let push := fetch_workflow_runs_covering pushPages owner repoName earliest targets hard_page_cap parseTs
    let pr := fetch_workflow_runs_covering prPages owner repoName earliest targets hard_page_cap parseTs
    let ci_runs := push.allRuns ++ pr.allRuns
    let ci_index := summarize_runs_by_sha ci_runs
    let finalized := (pass2_authors commits ci_index).map (fun kb => finalizeAuthor kb.2)
    { repo_name := repoName, days_window := days, authors := finalized,
      repo_summary := some
        { total_commits := total_commits,
          total_ci_runs := ci_runs.length,
          ci_status_totals := ci_status_totals ci_runs,
          total_developers := finalized.length } }

/-! Concrete fixtures used by the closed theorems below. -/

/-- A workflow run with every field absent. -/
def emptyRun : WorkflowRun :=
  ⟨none, none, none, none, none, none, none, none, none, none, none, none⟩

/-- A run for commit `abc` whose head repository is a fork. -/
def forkRun : WorkflowRun :=
  { emptyRun with
    head_sha := some "abc"
    head_repository := some "evil/fork"
    updated_at := some "2024-06-01T00:00:00Z" }

/-- A one-page provider response: page 1 holds only the fork run. -/
def forkPages : Nat → List WorkflowRun := fun p => if p = 1 then [forkRun] else []

/-- Provider responses for the retry counterexample: the first four requests
are rate-limited 403s with a future reset, the fifth would be a plain 200. -/
def rlFetch : Nat → Int → HttpResp := fun i t =>
  if i < 4 then { status := 403, remaining := 0, reset := t + 10, malformedHeaders := false }
  else { status := 200, remaining := 50, reset := 0, malformedHeaders := false }

/-- First run for SHA `s`: a creation timestamp but no update timestamp. -/
def tsRunA : WorkflowRun :=
  { emptyRun with
    head_sha := some "s"
    id := some 1
    created_at := some "2024-05-01T00:00:00Z" }

/-- Second run for SHA `s`: no timestamps at all. -/
def tsRunB : WorkflowRun := { emptyRun with head_sha := some "s", id := some 2 }

/-- A run whose conclusion is outside the fixed outcome-category set. -/
def staleRun : WorkflowRun :=
  { emptyRun with head_sha := some "x", conclusion := some "stale" }

/-- A well-formed successful run for SHA `s`. -/
def okRun : WorkflowRun :=
  { emptyRun with
    head_sha := some "s"
    id := some 7
    conclusion := some "success"
    event := some "push"
    updated_at := some "2024-05-02T00:00:00Z" }

/-- A concrete commit fixture. -/
def aCommit : Commit :=
  { hash := "s", authorName := some "Ada", authorEmail := some "ada@example.com",
    insertions := some 3, deletions := some 1, filesChanged := 2, authorTs := 100 }

/-- The invariant each per-SHA summary record satisfies: at least one run,
the has-runs flag set, a present latest run, and a tally summing to at most
the run count. -/
def shaInv (s : ShaSummary) : Prop :=
  1 ≤ s.runs_count ∧ s.has_actions_runs = true ∧ s.latest_run.isSome = true
    ∧ s.conclusions_tally.total ≤ s.runs_count

/-! Helper lemmas shared by the claim theorems. -/

theorem genLoop_done (ok : Option Bool) (url : Option String) (q : List String) :
    genLoop true ok url q = some (q.map SSEEvent.dataLine ++ [SSEEvent.finished ok url]) := by
  induction q with
  | nil => simp [genLoop]
  | cons l rest ih => simp [genLoop, ih]

theorem streakGo_eq_takeRun (rest : List Int) :
    ∀ prev cur, streakGo prev cur rest
      = (cur + (takeRun prev rest).1.length) :: streakLengths (takeRun prev rest).2 := by
  induction rest with
  | nil => intro prev cur; simp [streakGo, takeRun, streakLengths]
  | cons d rest2 ih =>
    intro prev cur
    by_cases h : d = prev + 1
    · simp only [streakGo, takeRun, if_pos h]
      rw [ih d (cur + 1)]
      simp only [List.length_cons]
      congr 1
      omega
    · simp only [streakGo, takeRun, if_neg h]
      simp [streakLengths]

theorem streakLengths_eq_maximalRuns (l : List Int) :
    streakLengths l = (maximalRuns l).map List.length := by
  have key : ∀ n (l : List Int), l.length ≤ n →
      streakLengths l = (maximalRuns l).map List.length := by
    intro n
    induction n with
    | zero =>
      intro l hl
      have : l = [] := List.eq_nil_of_length_eq_zero (Nat.le_zero.mp hl)
      subst this
      simp [streakLengths, maximalRuns]
    | succ n ih =>
      intro l hl
      match l with
      | [] => simp [streakLengths, maximalRuns]
      | d :: rest =>
        have hrest : (takeRun d rest).2.length ≤ n := by
          have h1 := takeRun_snd_length rest d
          have hr : rest.length ≤ n := Nat.le_of_succ_le_succ hl
          omega
        rw [streakLengths, streakGo_eq_takeRun, maximalRuns]
        simp only [List.map_cons, List.length_cons]
        rw [ih _ hrest]
        congr 1
        omega
  exact key l.length l le_rfl

theorem fetchAux_pages_le (pages : Nat → List WorkflowRun) (repoFull : String)
    (targets : List String) (cutoff : Int) (parseTs : String → Int) :
    ∀ fuel page acc cov reqs,
      (fetchAux pages repoFull targets cutoff parseTs fuel page acc cov reqs).pagesRequested
        ≤ reqs + fuel := by
  intro fuel
  induction fuel with
  | zero => intro page acc cov reqs; simp [fetchAux]
  | succ n ih =>
    intro page acc cov reqs
    simp only [fetchAux]
    split
    · simp
    · split
      · simp
      · split
        · simp
        · have h2 := ih (page + 1) (acc ++ pages page)
            (pageScan repoFull targets parseTs (pages page) cov).1 (reqs + 1)
          omega

/-! Claim theorems. -/

/-- C1: the claim says every run in the `allRuns` list returned by
`fetch_workflow_runs_covering` has a head-repository full name that is
absent or equal to the target `owner/repo`, runs from other repositories
being excluded.  Evaluating the code at the failing input — one page holding
a single run whose head repository is the fork `evil/fork` while the target
is `owner/repo` — shows the fork run IS returned in `allRuns`
(`all_runs.extend(runs)` precedes the filter, which gates only coverage and
the oldest-timestamp tracking, so the run is simultaneously excluded from
`covered`), contradicting the claim and the `already filtered to main repo
in github_ci` comment at miner.py line 240. -/
theorem c1_fork_run_kept_in_all_runs :
    (fetch_workflow_runs_covering forkPages "owner" "repo" 0 ["abc"] 100 (fun _ => 0)).allRuns
        = [forkRun]
      ∧ forkRun.head_repository = some "evil/fork"
      ∧ (fetch_workflow_runs_covering forkPages "owner" "repo" 0 ["abc"] 100 (fun _ => 0)).covered
        = [] := by
  decide

/-- C3 counterexample: the claim says the empty-window report's
`total_commits` field equals 0; in fact the short-circuit path writes the
initial `results` dict, which has no `repo_summary` (hence no
`total_commits` field) at all. -/
theorem c3_empty_report_has_no_total_commits :
    ¬ ∃ rs,
        (miner_main "repo" "owner" 90 [] (fun _ => []) (fun _ => []) 100 (fun _ => 0)).repo_summary
          = some rs ∧ rs.total_commits = 0 := by
  rintro ⟨rs, hrs, -⟩
  simp [miner_main] at hrs

/-- C3 (amended): if pass 1 finds zero commits in the mining window, the
miner terminates normally and writes a report whose author list is empty;
the report carries no `repo_summary` section and hence no `total_commits`
field (rather than `total_commits = 0`). -/
theorem c3_empty_window_report (repoName owner : String) (days : Nat)
    (pushPages prPages : Nat → List WorkflowRun) (cap : Nat) (parseTs : String → Int) :
    (miner_main repoName owner days [] pushPages prPages cap parseTs).authors = []
      ∧ (miner_main repoName owner days [] pushPages prPages cap parseTs).repo_summary = none := by
  constructor <;> simp [miner_main]

/-- C4: the claim (and the source's own docstring `Keeps a 'latest_run'
(most recently updated/created)`) says the retained latest run has a
timestamp ≥ every other same-SHA run's and that a run with a missing
timestamp never displaces an existing latest.  Evaluating the code at the
failing input — first a run with `created_at` 2024-05-01 and no
`updated_at`, then a run with no timestamps at all — shows the second,
timestampless run displaces the first: the stored latest's `updated_at` is
`None`, which makes `is_newer` unconditionally true. -/
theorem c4_latest_run_displaced_by_timestampless_run :
    summarize_runs_by_sha [tsRunA, tsRunB]
        = [("s", { has_actions_runs := true, runs_count := 2,
                   latest_run := some (projectLatest tsRunB),
                   conclusions_tally := zeroTally })]
      ∧ tsRunB.updated_at = none ∧ tsRunB.created_at = none
      ∧ tsRunA.created_at = some "2024-05-01T00:00:00Z"
      ∧ projectLatest tsRunB ≠ projectLatest tsRunA := by
  decide

/-- C6: for a job whose pipeline has enqueued its `N` progress lines and set
the completion flag, a single reader of `stream_progress` receives exactly
those `N` lines as data events in enqueue order, followed by exactly one
terminal event carrying the success flag and result location, after which
the finite event sequence ends (the generator is consumed once and is not
restartable). -/
theorem c6_stream_progress_exact_events (lines : List String) (ok : Option Bool)
    (url : Option String) :
    stream_progress lines true ok url
      = some (SSEEvent.retryDirective ::
          (lines.map SSEEvent.dataLine ++ [SSEEvent.finished ok url])) := by
  simp [stream_progress, genLoop_done]

/-- C7: `compute_average_streak` returns the arithmetic mean of the lengths
of the maximal runs of consecutive calendar days (the sum of the run lengths
divided by the number of runs, with the empty list yielding 0.0 — in ℚ the
0/0 convention makes the equation uniform), and on the concrete inputs
{2024-01-01, 2024-01-02, 2024-01-03, 2024-01-10} (day ordinals 1, 2, 3, 10)
and {} it returns 2.0 and 0.0. -/
theorem c7_average_streak :
    (∀ l : List Int, compute_average_streak l
        = (((maximalRuns l).map List.length).sum : Rat)
          / (((maximalRuns l).map List.length).length : Rat))
      ∧ compute_average_streak [1, 2, 3, 10] = 2
      ∧ compute_average_streak [] = 0 := by
  refine ⟨?_, ?_, ?_⟩
  · intro l
    by_cases h : l = []
    · subst h
      simp [compute_average_streak, maximalRuns]
    · rw [compute_average_streak, if_neg h, streakLengths_eq_maximalRuns]
  · rw [compute_average_streak, if_neg (by decide : ¬([1, 2, 3, 10] : List Int) = [])]
    norm_num [streakLengths, streakGo]
  · simp [compute_average_streak]

/-- C8: for every input — whatever the provider returns on each page, even
if neither coverage nor the cutoff condition is ever met —
`fetch_workflow_runs_covering` requests at most `hard_page_cap` pages (and
terminates, being a total function of its fuel). -/
theorem c8_page_cap_bound (pages : Nat → List WorkflowRun) (owner repo : String)
    (cutoff : Int) (targets : List String) (cap : Nat) (parseTs : String → Int) :
    (fetch_workflow_runs_covering pages owner repo cutoff targets cap parseTs).pagesRequested
      ≤ cap := by
  simpa using fetchAux_pages_le pages (owner ++ "/" ++ repo) targets cutoff parseTs cap 1 [] [] 0

/-- C10: `owner_from_url` raises `ValueError` exactly when the URL's path,
after stripping surrounding slashes, splits into fewer than two
slash-separated segments; otherwise it returns the first path segment. -/
theorem c10_owner_from_url (path : String) :
    ((∃ e, owner_from_url path = Except.error e)
        ↔ (pySplitSlash (pyStripSlash path)).length < 2)
      ∧ ∀ o, owner_from_url path = Except.ok o
          → o = (pySplitSlash (pyStripSlash path)).headD "" := by
  have hdef : owner_from_url path
      = if (pySplitSlash (pyStripSlash path)).length < 2
        then Except.error "Cannot parse owner or repo from URL"
        else Except.ok ((pySplitSlash (pyStripSlash path)).headD "") := rfl
  by_cases h : (pySplitSlash (pyStripSlash path)).length < 2
  · rw [hdef, if_pos h]
    refine ⟨⟨fun _ => h, fun _ => ⟨_, rfl⟩⟩, fun o ho => ?_⟩
    cases ho
  · rw [hdef, if_neg h]
    refine ⟨⟨fun he => ?_, fun hl => absurd hl h⟩, fun o ho => ?_⟩
    · obtain ⟨e, he⟩ := he
      cases he
    · cases ho
      rfl

/-- C10 witness: the general theorem applied at the concrete paths
`/tensorflow/tensorflow` (ok branch) and `justowner` (error branch). -/
theorem c10_owner_from_url_witness :
    "tensorflow" = (pySplitSlash (pyStripSlash "/tensorflow/tensorflow")).headD ""
      ∧ ∃ e, owner_from_url "justowner" = Except.error e :=
  ⟨(c10_owner_from_url "/tensorflow/tensorflow").2 "tensorflow" rfl,
   (c10_owner_from_url "justowner").1.mpr (by decide)⟩

/-- C2 counterexample: with `max_retries = 4` and every response a
rate-limited 403 (quota 0, reset in the future), `_get` fails after exactly
four requests even though a plain 200 awaits the fifth request — so the four
rate-limit sleep/retry rounds consumed the whole retry budget, refuting the
claim that a rate-limit sleep leaves the number of remaining attempts
unchanged (in CPython, `continue` inside `for i in range(max_retries)` still
advances `i`). -/
theorem c2_rate_limited_403s_exhaust_budget :
    pyGet rlFetch 2 4 0 = GetOutcome.httpError 403 4
      ∧ (rlFetch 4 0).status = 200
      ∧ (sleep_until_reset 0 (rlFetch 0 0)).1 = true := by
  decide

/-- C2 (amended): on a 403 with the remaining-quota header at zero and a
future reset time, `_get` sleeps until the reset time plus one second and
retries — but the retry consumes one of the `max_retries` (default 4)
attempts, exactly like the non-rate-limited 403 branch and the 5xx branch:
one loop iteration steps to the next with one unit of budget spent and the
loop index advanced. -/
theorem c2_rate_limit_sleep_consumes_attempt :
    (∀ (fetch : Nat → Int → HttpResp) (baseSleep : Int) (fuel i : Nat) (t : Int),
        (fetch i t).status = 403 → (sleep_until_reset t (fetch i t)).1 = true →
        getAux fetch baseSleep (fuel + 2) i t
          = getAux fetch baseSleep (fuel + 1) (i + 1) (sleep_until_reset t (fetch i t)).2)
      ∧ (∀ (t : Int) (r : HttpResp), r.malformedHeaders = false → r.remaining ≤ 0 →
          t < r.reset → sleep_until_reset t r = (true, r.reset + 1)) := by
  constructor
  · intro fetch baseSleep fuel i t h403 hs
    conv_lhs => rw [getAux]
    simp only [h403, hs, if_true, if_pos rfl]
  · intro t r hm hr hlt
    unfold sleep_until_reset
    rw [if_neg (by simp [hm]), if_pos ⟨hr, hlt⟩]
    have hmax : max 0 (r.reset - t) = r.reset - t := by omega
    have harith : t + max 0 (r.reset - t) + 1 = r.reset + 1 := by omega
    rw [harith]

/-- C2 witness: the amended theorem applied to the concrete rate-limited
fixture — the sleep ends at reset + 1 = 11 and one unit of fuel is
consumed. -/
theorem c2_rate_limit_sleep_consumes_attempt_witness :
    getAux rlFetch 2 3 0 0 = getAux rlFetch 2 2 1 11
      ∧ sleep_until_reset 0 (rlFetch 0 0) = (true, 11) := by
  have h2 := c2_rate_limit_sleep_consumes_attempt.2 0 (rlFetch 0 0) (by decide) (by decide)
    (by decide)
  have h1 := c2_rate_limit_sleep_consumes_attempt.1 rlFetch 2 1 0 0 (by decide) (by decide)
  have h3 : (sleep_until_reset 0 (rlFetch 0 0)).2 = 11 := by decide
  rw [h3] at h1
  exact ⟨h1, by simpa [h3] using h2⟩

theorem tally_foldl_ne (kvs : List (String × Nat)) :
    ∀ (counter : String → Nat) (c : String), (∀ kv ∈ kvs, kv.1 ≠ c) →
      (kvs.foldl tallyItemStep counter) c = counter c := by
  induction kvs with
  | nil => intro counter c _h; rfl
  | cons kv rest ih =>
    intro counter c h
    rw [List.foldl_cons]
    rw [ih (tallyItemStep counter kv) c (fun x hx => h x (List.mem_cons_of_mem kv hx))]
    unfold tallyItemStep
    split
    · have hne : ¬ c = kv.1 := fun hc => h kv (List.mem_cons_self kv rest) hc.symm
      simp [hne]
    · rfl

theorem addTally_ne (counter : String → Nat) (t : ConclTally) (c : String)
    (h : c ∉ fixedConclusions) : addTally counter t c = counter c := by
  apply tally_foldl_ne
  intro kv hkv
  fin_cases hkv <;> exact fun heq => h (heq ▸ (by simp [fixedConclusions]))

theorem upsertAuthor_forall (Q : AuthorBucket → Prop) :
    ∀ (m : List ((String × String) × AuthorBucket)) (k : String × String)
      (f : AuthorBucket → AuthorBucket) (b0 : AuthorBucket),
      (∀ kb ∈ m, Q kb.2) → (∀ b, Q b → Q (f b)) → Q (f b0) →
      ∀ kb ∈ upsertAuthor m k f b0, Q kb.2 := by
  intro m
  induction m with
  | nil =>
    intro k f b0 _hm _hf hinit kb hkb
    simp only [upsertAuthor, List.mem_singleton] at hkb
    rw [hkb]
    exact hinit
  | cons p rest ih =>
    intro k f b0 hm hf hinit kb hkb
    obtain ⟨k0, b⟩ := p
    rw [upsertAuthor] at hkb
    by_cases hk : k0 = k
    · rw [if_pos hk] at hkb
      rcases List.mem_cons.mp hkb with h1 | h1
      · rw [h1]
        exact hf b (hm (k0, b) (List.mem_cons_self _ _))
      · exact hm kb (List.mem_cons_of_mem _ h1)
    · rw [if_neg hk] at hkb
      rcases List.mem_cons.mp hkb with h1 | h1
      · rw [h1]
        exact hm (k0, b) (List.mem_cons_self _ _)
      · exact ih k f b0 (fun x hx => hm x (List.mem_cons_of_mem _ hx)) hf hinit kb h1

theorem stepBucket_totals_zero (idx : List (String × ShaSummary)) (c : Commit)
    (cstr : String) (h : cstr ∉ fixedConclusions) :
    ∀ b : AuthorBucket, b.ci_conclusions_totals cstr = 0 →
      (stepBucket idx c b).ci_conclusions_totals cstr = 0 := by
  intro b hb
  cases hci : lookupSha idx c.hash with
  | none =>
    simp only [stepBucket, hci]
    exact hb
  | some s =>
    by_cases hhas : s.has_actions_runs = true
    · simp only [stepBucket, hci, hhas, if_true]
      exact (addTally_ne b.ci_conclusions_totals s.conclusions_tally cstr h).trans hb
    · simp only [stepBucket, hci, hhas, if_false]
      exact hb

theorem pass2_ci_totals_zero (idx : List (String × ShaSummary)) (cstr : String)
    (h : cstr ∉ fixedConclusions) :
    ∀ (commits : List Commit) (m : List ((String × String) × AuthorBucket)),
      (∀ kb ∈ m, kb.2.ci_conclusions_totals cstr = 0) →
      ∀ kb ∈ commits.foldl
          (fun m2 c => upsertAuthor m2 (authorKey c) (stepBucket idx c) (initBucket c)) m,
        kb.2.ci_conclusions_totals cstr = 0 := by
  intro commits
  induction commits with
  | nil => intro m hm kb hkb; exact hm kb (by simpa using hkb)
  | cons c rest ih =>
    intro m hm
    rw [List.foldl_cons]
    apply ih
    apply upsertAuthor_forall (fun b => b.ci_conclusions_totals cstr = 0) m (authorKey c)
      (stepBucket idx c) (initBucket c) hm (stepBucket_totals_zero idx c cstr h)
    exact stepBucket_totals_zero idx c cstr h (initBucket c) (by simp [initBucket])

theorem ciStatus_foldl (runs : List WorkflowRun) :
    ∀ (acc : String → Nat) (c : String),
      (runs.foldl ciStatusStep acc) c
        = acc c + runs.countP (fun r => decide (pyLower (r.conclusion.getD "") = c ∧ c ≠ "")) := by
  induction runs with
  | nil => intro acc c; simp
  | cons r rest ih =>
    intro acc c
    rw [List.foldl_cons, ih, List.countP_cons]
    simp only [ciStatusStep]
    by_cases h1 : pyLower (r.conclusion.getD "") = ""
    · rw [if_neg (by simpa using h1)]
      have hp : (decide (pyLower (r.conclusion.getD "") = c ∧ c ≠ "")) = false := by
        rw [h1]
        exact decide_eq_false (fun hx => hx.2 hx.1.symm)
      rw [hp]
      simp
    · rw [if_pos (by simpa using h1)]
      by_cases h2 : c = pyLower (r.conclusion.getD "")
      · have hcne : c ≠ "" := by rw [h2]; exact h1
        have hp : (decide (pyLower (r.conclusion.getD "") = c ∧ c ≠ "")) = true :=
          decide_eq_true ⟨h2.symm, hcne⟩
        rw [if_pos h2, hp]
        simp
        omega
      · have hp : (decide (pyLower (r.conclusion.getD "") = c ∧ c ≠ "")) = false :=
          decide_eq_false (fun hx => h2 hx.1.symm)
        rw [if_neg h2, hp]
        simp

/-- C5 counterexample: a run whose conclusion is the unrecognized category
`stale` IS counted by the repo-level `ci_status_totals` (which counts every
non-empty lowercased conclusion), refuting the claim that everywhere
outcome categories are tallied only the fixed seven-category set is
counted. -/
theorem c5_stale_counted_in_repo_totals :
    ci_status_totals [staleRun] "stale" = 1 ∧ "stale" ∉ fixedConclusions := by
  decide

/-- C5 (amended): the per-SHA `conclusions_tally` update and the per-author
CI totals count only conclusions in the fixed set {success, failure,
cancelled, timed_out, skipped, neutral, action_required} and silently drop
unrecognized ones, but the repo-level `ci_status_totals` counts every run
with a non-empty lowercased conclusion — recognized or not — without
raising an error (all three tallies are total functions). -/
theorem c5_unrecognized_conclusions :
    (∀ (t : ConclTally) (c : String), c ∉ fixedConclusions → t.bump c = t)
      ∧ (∀ (commits : List Commit) (idx : List (String × ShaSummary)) (c : String),
          c ∉ fixedConclusions →
          ∀ kb ∈ pass2_authors commits idx, kb.2.ci_conclusions_totals c = 0)
      ∧ (∀ (runs : List WorkflowRun) (c : String),
          ci_status_totals runs c
            = runs.countP (fun r => decide (pyLower (r.conclusion.getD "") = c ∧ c ≠ ""))) := by
  refine ⟨?_, ?_, ?_⟩
  · intro t c h
    obtain ⟨h1, h2, h3, h4, h5, h6, h7⟩ :
        c ≠ "success" ∧ c ≠ "failure" ∧ c ≠ "cancelled" ∧ c ≠ "timed_out"
          ∧ c ≠ "skipped" ∧ c ≠ "neutral" ∧ c ≠ "action_required" := by
      simpa [fixedConclusions] using h
    simp [ConclTally.bump, h1, h2, h3, h4, h5, h6, h7]
  · intro commits idx c h kb hkb
    exact pass2_ci_totals_zero idx c h commits [] (by simp) kb hkb
  · intro runs c
    simpa using ciStatus_foldl runs (fun _ => 0) c

/-- C5 witness: the amended theorem applied at concrete inputs — bumping the
unrecognized key `stale` leaves the zero tally unchanged, the single-commit
author bucket holds no `stale` total, and the repo totals at `stale` equal
the non-empty-conclusion count. -/
theorem c5_unrecognized_conclusions_witness :
    ConclTally.bump zeroTally "stale" = zeroTally
      ∧ (stepBucket [] aCommit (initBucket aCommit)).ci_conclusions_totals "stale" = 0
      ∧ ci_status_totals [staleRun] "stale"
          = [staleRun].countP
              (fun r => decide (pyLower (r.conclusion.getD "") = "stale" ∧ "stale" ≠ "")) := by
  refine ⟨c5_unrecognized_conclusions.1 zeroTally "stale" (by decide), ?_,
    c5_unrecognized_conclusions.2.2 [staleRun] "stale"⟩
  exact c5_unrecognized_conclusions.2.1 [aCommit] [] "stale" (by decide)
    (authorKey aCommit, stepBucket [] aCommit (initBucket aCommit))
    (by simp [pass2_authors, upsertAuthor])

theorem bump_total_le (t : ConclTally) (c : String) : (t.bump c).total ≤ t.total + 1 := by
  unfold ConclTally.bump
  split_ifs <;> simp [ConclTally.total] <;> omega

theorem summarizeStep_inv (run : WorkflowRun) (d : ShaSummary) (hd : shaInv d) :
    shaInv (summarizeStep d run) := by
  obtain ⟨h1, h2, h3, h4⟩ := hd
  refine ⟨?_, ?_, ?_, ?_⟩
  · simp only [summarizeStep]
    omega
  · simpa only [summarizeStep] using h2
  · simp only [summarizeStep]
    split
    · rfl
    · exact h3
  · simp only [summarizeStep]
    have hb := bump_total_le d.conclusions_tally (pyLower (run.conclusion.getD ""))
    omega

theorem summarizeStep_init_inv (run : WorkflowRun) :
    shaInv (summarizeStep initialShaSummary run) := by
  refine ⟨?_, ?_, ?_, ?_⟩
  · simp [summarizeStep, initialShaSummary]
  · simp [summarizeStep, initialShaSummary]
  · simp [summarizeStep, initialShaSummary]
  · have hb := bump_total_le zeroTally (pyLower (run.conclusion.getD ""))
    have hz : zeroTally.total = 0 := rfl
    simp only [summarizeStep, initialShaSummary]
    omega

theorem upsertSha_inv :
    ∀ (m : List (String × ShaSummary)) (sha : String) (run : WorkflowRun),
      (∀ p ∈ m, shaInv p.2) → ∀ p ∈ upsertSha m sha run, shaInv p.2 := by
  intro m
  induction m with
  | nil =>
    intro sha run _hm p hp
    simp only [upsertSha, List.mem_singleton] at hp
    rw [hp]
    exact summarizeStep_init_inv run
  | cons q rest ih =>
    intro sha run hm p hp
    obtain ⟨k, v⟩ := q
    rw [upsertSha] at hp
    by_cases hk : k = sha
    · rw [if_pos hk] at hp
      rcases List.mem_cons.mp hp with h1 | h1
      · rw [h1]
        exact summarizeStep_inv run v (hm (k, v) (List.mem_cons_self _ _))
      · exact hm p (List.mem_cons_of_mem _ h1)
    · rw [if_neg hk] at hp
      rcases List.mem_cons.mp hp with h1 | h1
      · rw [h1]
        exact hm (k, v) (List.mem_cons_self _ _)
      · exact ih sha run (fun x hx => hm x (List.mem_cons_of_mem _ hx)) p h1

theorem summarize_fold_inv (runs : List WorkflowRun) :
    ∀ (m : List (String × ShaSummary)), (∀ p ∈ m, shaInv p.2) →
      ∀ p ∈ runs.foldl
          (fun m2 run =>
            match run.head_sha with
            | none => m2
            | some sha => if sha = "" then m2 else upsertSha m2 sha run)
          m,
        shaInv p.2 := by
  induction runs with
  | nil => intro m hm p hp; exact hm p (by simpa using hp)
  | cons r rest ih =>
    intro m hm
    rw [List.foldl_cons]
    apply ih
    cases hs : r.head_sha with
    | none =>
      simp only [hs]
      exact hm
    | some sha =>
      by_cases he : sha = ""
      · simp only [hs, if_pos he]
        exact hm
      · simp only [hs, if_neg he]
        exact upsertSha_inv m sha r hm

/-- C9: every per-SHA summary in the mapping returned by
`summarize_runs_by_sha` has `runs_count ≥ 1`, its `has_actions_runs` flag
set, a non-null `latest_run`, and a `conclusions_tally` whose values sum to
at most `runs_count`. -/
theorem c9_sha_summary_invariants (runs : List WorkflowRun) (sha : String) (s : ShaSummary)
    (h : lookupSha (summarize_runs_by_sha runs) sha = some s) :
    1 ≤ s.runs_count ∧ s.has_actions_runs = true ∧ s.latest_run.isSome = true
      ∧ s.conclusions_tally.total ≤ s.runs_count := by
  have hmem : ∃ p ∈ summarize_runs_by_sha runs, p.2 = s := by
    unfold lookupSha at h
    cases hf : (summarize_runs_by_sha runs).find? (fun p => p.1 == sha) with
    | none => rw [hf] at h; cases h
    | some p =>
      rw [hf] at h
      refine ⟨p, List.mem_of_find?_eq_some hf, ?_⟩
      injection h
  obtain ⟨p, hp, hps⟩ := hmem
  have hinv := summarize_fold_inv runs [] (by simp) p hp
  rw [hps] at hinv
  exact hinv

/-- C9 witness: the invariant theorem applied to the singleton run list
`[okRun]` at SHA `s`, whose summary is the one-step record. -/
theorem c9_sha_summary_invariants_witness :
    1 ≤ (summarizeStep initialShaSummary okRun).runs_count
      ∧ (summarizeStep initialShaSummary okRun).has_actions_runs = true
      ∧ (summarizeStep initialShaSummary okRun).latest_run.isSome = true
      ∧ (summarizeStep initialShaSummary okRun).conclusions_tally.total
        ≤ (summarizeStep initialShaSummary okRun).runs_count :=
  c9_sha_summary_invariants [okRun] "s" (summarizeStep initialShaSummary okRun) (by decide)

end RepoPerf
